import Mathlib

/-!
Shallow embedding of the `import` command of `cli_ha_statistics.py`
(the reconciliation / diff engine of the Home Assistant statistics CLI).

Modelling conventions:
* Python numbers (`int(...)` / `float(...)` results and stored column values)
  are modelled exactly as `ℤ` / `ℚ`; binary floating point rounding is not
  modelled (comparisons against the 1e-6 tolerance are exact rational
  arithmetic).
* A CSV cell string is abstracted by a `Cell`: its raw text, its stripped
  text, and the outcomes of Python `int(...)` and `float(...)` on the
  stripped text (`none` = the conversion raises `ValueError`).
* A `csv.DictReader` row is a list of `(fieldname, value)` pairs in header
  order; a value of `none` is Python `None` (the `restval` used for rows
  shorter than the header).  Fieldnames are assumed pairwise distinct, as
  they come from a CSV header turned into dict keys.
* The iteration order of the Python set `data_cols` is an explicit
  parameter `it : List Col → List Col`; a real interpreter run corresponds
  to some `it` whose output is a permutation of its input (`validIter`).
* SQL statements are kept structurally (`Stmt`) together with the exact
  text renderer used by the Python code; executing a statement interprets
  the rendered SQL against the store.  `f"{v:.6f}"` is modelled by rounding
  to 6 decimal places (`round6`); Python rounds the underlying binary
  float to nearest / ties-to-even, which agrees with `round6` except on
  exact half-way ties and on negative zero, neither of which occurs in any
  concrete input used below.
* Exception message texts (`str(e)`) are elided: a caught per-row exception
  is reported as the fixed line "Error processing row".
-/

namespace HACli

/-- Column name. -/
abbrev Col := String

/-- Abstraction of one CSV cell string: raw text, stripped text, and the
outcomes of Python `int(...)` / `float(...)` on the stripped text
(`none` means the conversion raises `ValueError`). -/
structure Cell where
  raw : String
  stripped : String
  asInt : Option ℤ
  asFloat : Option ℚ
  deriving DecidableEq

/-- One `csv.DictReader` row: fieldnames in header order, each mapped to
`some cell` (the cell text) or `none` (Python `None`, the restval used
when the raw row is shorter than the header). -/
abbrev Row := List (Col × Option Cell)

/-- `row.get(c)` (no default): `none` when the key is absent. -/
def rowGet (r : Row) (c : Col) : Option (Option Cell) :=
  (r.find? (fun p => p.1 == c)).map Prod.snd

/-- A typed value in the `data` dict: `int(...)` or `float(...)` result. -/
inductive Val where
  | i (n : ℤ)
  | f (q : ℚ)
  deriving DecidableEq

/-- `float(v)` of a data value. -/
def Val.toQ : Val → ℚ
  | Val.i n => (n : ℚ)
  | Val.f q => q

/-- The fixed comparison tolerance `1e-6`. -/
def tol : ℚ := 1 / 1000000

/-- `metadata_cols = {'id','table','entity','date','metadata_id','created_ts','start_ts'}`. -/
def metadataCols : List Col :=
  ["id", "table", "entity", "date", "metadata_id", "created_ts", "start_ts"]

/-- `data.get(c)` on the typed data dict (entries in insertion order). -/
def dget (d : List (Col × Val)) (c : Col) : Option Val :=
  (d.find? (fun p => p.1 == c)).map Prod.snd

/-- `int(val) if col in ('id', 'metadata_id') else float(val)`;
`none` models the `ValueError` branch. -/
def convFn (c : Col) (cell : Cell) : Option Val :=
  if c = "id" ∨ c = "metadata_id" then cell.asInt.map Val.i else cell.asFloat.map Val.f

/-- The `data` extraction loop: for each table column, fetch the cell
(default `''`), skip empty (after strip), convert, and on conversion
failure drop the field with a warning.  Result: warning lines plus
`some data`, or `none` when the row raises (a Python `None` cell makes
`.strip()` raise `AttributeError`, aborting the row). -/
def buildData (r : Row) : List Col → List String × Option (List (Col × Val))
  | [] => ([], some [])
  | c :: cs =>
    match rowGet r c with
    | some none => ([], none)
    | none => buildData r cs
    | some (some cell) =>
      if cell.stripped = "" then buildData r cs
      else
        match convFn c cell with
        | some v =>
          let rest := buildData r cs
          (rest.1, rest.2.map (fun d => (c, v) :: d))
        | none =>
          let rest := buildData r cs
          (("Warning: Could not convert " ++ c ++ "=" ++ cell.stripped ++ ", skipping") :: rest.1,
            rest.2)

/-- The `changes` counter dict. -/
structure Changes where
  insert : ℕ := 0
  delete : ℕ := 0
  update : ℕ := 0
  skip : ℕ := 0
  deriving DecidableEq

/-- Componentwise sum of counters. -/
def addC (a b : Changes) : Changes :=
  ⟨a.insert + b.insert, a.delete + b.delete, a.update + b.update, a.skip + b.skip⟩

/-- `|o - x| > 1e-6`, computed on numerators and denominators with integer
arithmetic only (so that the kernel can evaluate it on concrete inputs);
`exceedsTol_iff` below proves it equal to the textbook form. -/
def exceedsTol (o x : ℚ) : Bool :=
  decide ((o.num * (x.den : ℤ) - x.num * (o.den : ℤ)).natAbs * 1000000 > o.den * x.den)

/-- `⌊q * 10^6 + 1/2⌋`, computed on the numerator and denominator with
integer arithmetic only; `round6Z_eq` below proves it equal to the floor
form. -/
def round6Z (q : ℚ) : ℤ := (2000000 * q.num + (q.den : ℤ)) / (2 * (q.den : ℤ))

/-- `round(q, 6)` as performed by rendering with `%.6f` and re-reading the
decimal text (round half up; see the header comment on ties). -/
def round6 (q : ℚ) : ℚ := ((round6Z q : ℤ) : ℚ) / 1000000

/-- Left-pad a natural number to 6 digits. -/
def pad6 (n : ℕ) : String :=
  let s := toString n
  String.mk (List.replicate (6 - s.length) '0') ++ s

/-- Python `f"{q:.6f}"`. -/
def render6 (q : ℚ) : String :=
  let z : ℤ := round6Z q
  let sign := if z < 0 then "-" else ""
  let a := z.natAbs
  sign ++ toString (a / 1000000) ++ "." ++ pad6 (a % 1000000)

/-- `str(v) if isinstance(v, int) else f"{v:.6f}"`. -/
def renderVal : Val → String
  | Val.i n => toString n
  | Val.f q => render6 q

/-- The decimal value actually carried by the rendered text of a value
(ints exactly; floats rounded to 6 decimals by `%.6f`). -/
def Val.stored : Val → ℚ
  | Val.i n => (n : ℚ)
  | Val.f q => round6 q

/-- A generated SQL mutation statement, kept structurally. -/
inductive Stmt where
  | del (tbl : String) (idv : ℤ)
  | ins (tbl : String) (fields : List (Col × Val))
  | upd (tbl : String) (sets : List (Col × Val)) (idv : ℤ)
  deriving DecidableEq

/-- The exact statement text built by the Python code. -/
def renderStmt : Stmt → String
  | Stmt.del t n => "DELETE FROM " ++ t ++ " WHERE id = " ++ toString n ++ ";"
  | Stmt.ins t fields =>
    "INSERT INTO " ++ t ++ " (" ++ String.intercalate ", " (fields.map Prod.fst) ++
      ") VALUES (" ++ String.intercalate ", " (fields.map (fun p => renderVal p.2)) ++ ");"
  | Stmt.upd t sets n =>
    "UPDATE " ++ t ++ " SET " ++
      String.intercalate ", " (sets.map (fun p => p.1 ++ " = " ++ renderVal p.2)) ++
      " WHERE id = " ++ toString n ++ ";"

/-- A stored row: column → value (`none` = SQL NULL). -/
abbrev StoredRec := Col → Option ℚ

/-- The persisted store: table name and id → stored row. -/
abbrev Store := String → ℤ → Option StoredRec

/-- Point update of the store. -/
def storeSet (st : Store) (t : String) (n : ℤ) (rec : Option StoredRec) : Store :=
  fun t2 n2 => if t2 = t ∧ n2 = n then rec else st t2 n2

/-- `data_cols = set(data.keys()) - metadata_cols`, as a list in data
insertion order (the canonical element list of the set). -/
def dataColsOf (d : List (Col × Val)) : List Col :=
  (d.map Prod.fst).filter (fun c => !(metadataCols.contains c))

/-- Python truthiness of `record_id = data.get('id')`: `None` and `0` are
falsy.  (The `id` column is always int-converted, so a float value cannot
occur here.) -/
def truthyId : Option Val → Option ℤ
  | some (Val.i n) => if n = 0 then none else some n
  | _ => none

/-- `data.setdefault('created_ts', data['start_ts'])` (the insert branch
has already checked that `start_ts` is present). -/
def setdefaultCreated (d : List (Col × Val)) : List (Col × Val) :=
  match dget d "created_ts" with
  | some _ => d
  | none =>
    match dget d "start_ts" with
    | some sv => d ++ [("created_ts", sv)]
    | none => d

/-- The comparator loop over the given iteration order of `data_cols`:
collect `col = value` set-parts for fields differing by more than the
tolerance.  `none` models the per-row exception raised by `float(old)`
when a compared stored value is NULL (or the impossible missing-key
lookup). -/
def setParts (cur : StoredRec) (d : List (Col × Val)) : List Col → Option (List (Col × Val))
  | [] => some []
  | c :: cs =>
    match dget d c, cur c with
    | some v, some o =>
      if exceedsTol o v.toQ then (setParts cur d cs).map (fun l => (c, v) :: l)
      else setParts cur d cs
    | _, _ => none

/-- Outcome of processing one row: echoed lines, an optional statement,
and the counter increments. -/
structure RowOut where
  msgs : List String
  stmt : Option Stmt
  delta : Changes
  deriving DecidableEq

/-- Classification of one typed record (the code after `data` is built):
delete / insert / update-or-skip, exactly as in the source. -/
def classifyData (store : Store) (it : List Col → List Col) (tn : String)
    (d : List (Col × Val)) : RowOut :=
  let dcols := dataColsOf d
  match truthyId (dget d "id") with
  | some n =>
    if dcols.isEmpty then ⟨[], some (Stmt.del tn n), {delete := 1}⟩
    else
      match store tn n with
      | none => ⟨[], some (Stmt.ins tn d), {insert := 1}⟩
      | some cur =>
        match setParts cur d (it dcols) with
        | none => ⟨["Error processing row"], none, {}⟩
        | some sets =>
          if sets.isEmpty then ⟨[], none, {skip := 1}⟩
          else ⟨[], some (Stmt.upd tn sets n), {update := 1}⟩
  | none =>
    if dget d "metadata_id" = none ∨ dget d "start_ts" = none then
      ⟨["Warning: missing metadata_id or start_ts for insert, skipping"], none, {}⟩
    else ⟨[], some (Stmt.ins tn (setdefaultCreated d)), {insert := 1}⟩

/-- `row.get('table')` collapsed to the raw string (`none` = Python `None`,
whether the key is absent or the row was short). -/
def tableVal (r : Row) : Option String :=
  match rowGet r "table" with
  | some (some cell) => some cell.raw
  | _ => none

/-- Membership in the `tables` dict. -/
def knownTable (t : String) : Bool :=
  t == "statistics" || t == "statistics_short_term"

/-- `f"Skipping row with invalid table: {tbl_name}"`. -/
def invalidTableMsg (r : Row) : String :=
  "Skipping row with invalid table: " ++
    (match tableVal r with
     | some t => t
     | none => "None")

/-- Full processing of one CSV row (one iteration of the main loop,
including the enclosing per-row `try`/`except`).  `tcols` gives
`tbl.c.keys()` for each known table (the reflected schema, external to
the source). -/
def processRow (tcols : String → List Col) (store : Store) (it : List Col → List Col)
    (r : Row) : RowOut :=
  match tableVal r with
  | some tn =>
    if knownTable tn then
      let b := buildData r (tcols tn)
      match b.2 with
      | none => ⟨b.1 ++ ["Error processing row"], none, {}⟩
      | some d =>
        let o := classifyData store it tn d
        ⟨b.1 ++ o.msgs, o.stmt, o.delta⟩
    else ⟨[invalidTableMsg r], none, {}⟩
  | none => ⟨[invalidTableMsg r], none, {}⟩

/-- Accumulated result of the main loop. -/
structure EngineOut where
  msgs : List String
  ops : List Stmt
  changes : Changes
  deriving DecidableEq

/-- The main loop over all parsed rows, in input order. -/
def engine (tcols : String → List Col) (store : Store) (it : List Col → List Col) :
    List Row → EngineOut
  | [] => ⟨[], [], {}⟩
  | r :: rs =>
    let o := processRow tcols store it r
    let e := engine tcols store it rs
    ⟨o.msgs ++ e.msgs, o.stmt.toList ++ e.ops, addC o.delta e.changes⟩

/-- `dict(zip(fieldnames, row))` completed with `restval = None` for the
missing keys: the `DictReader` row seen by the main loop. -/
def dictRow (fns : List Col) (raw : List Cell) : Row :=
  fns.enum.map (fun p => (p.2, raw.get? p.1))

/-- `len(row)` of the `DictReader` dict: all fieldnames are keys (assumed
pairwise distinct), plus the `None` restkey exactly when the raw row is
longer than the header. -/
def dictLen (fns : List Col) (raw : List Cell) : ℕ :=
  fns.length + (if fns.length < raw.length then 1 else 0)

/-- The reading loop with `enumerate(reader, start=2)`: abort with the
line index at the first row whose dict length differs from the header
length. -/
def parseFrom (fns : List Col) : ℕ → List (List Cell) → Except ℕ (List Row)
  | _, [] => Except.ok []
  | idx, raw :: rest =>
    if dictLen fns raw ≠ fns.length then Except.error idx
    else (parseFrom fns (idx + 1) rest).map (fun rs => dictRow fns raw :: rs)

/-- The whole CSV reading phase (blank lines, skipped by `DictReader`
before enumeration, are assumed already removed from `raws`). -/
def parsePhase (fns : List Col) (raws : List (List Cell)) : Except ℕ (List Row) :=
  parseFrom fns 2 raws

/-- The 75-character separator line. -/
def eqBar : String := String.mk (List.replicate 75 '=')

/-- The summary line (identical format in both modes, different prefix). -/
def summaryLine (pre : String) (ch : Changes) : String :=
  pre ++ toString ch.insert ++ " inserts, " ++ toString ch.update ++ " updates, " ++
    toString ch.delete ++ " deletes, " ++ toString ch.skip ++ " skips"

/-- The structural error line.  The reported count `got` is always
`expected + 1`: only rows longer than the header change the dict length,
and then by exactly one (the restkey). -/
def structErr (fns : List Col) (idx : ℕ) : String :=
  "CSV structure error at line " ++ toString idx ++ ": expected " ++
    toString fns.length ++ " columns, got " ++ toString (fns.length + 1)

/-- The statement sequence printed by a dry run (empty on parse abort). -/
def previewPrintedOps (tcols : String → List Col) (store : Store)
    (it : List Col → List Col) (fns : List Col) (raws : List (List Cell)) : List Stmt :=
  match parsePhase fns raws with
  | Except.error _ => []
  | Except.ok rows => (engine tcols store it rows).ops

/-- The statement sequence the apply mode hands to the executor (empty on
parse abort). -/
def applyExecutedOps (tcols : String → List Col) (store : Store)
    (it : List Col → List Col) (fns : List Col) (raws : List (List Cell)) : List Stmt :=
  match parsePhase fns raws with
  | Except.error _ => []
  | Except.ok rows => (engine tcols store it rows).ops

/-- Every line echoed by a dry run, in order. -/
def previewLines (tcols : String → List Col) (store : Store)
    (it : List Col → List Col) (fns : List Col) (raws : List (List Cell)) : List String :=
  ["=== DRY RUN MODE: SQL commands that would be executed ===", eqBar] ++
    (match parsePhase fns raws with
     | Except.error idx => [structErr fns idx]
     | Except.ok rows =>
       let e := engine tcols store it rows
       e.msgs ++
         [summaryLine "Operations summary: " e.changes, "SQL to execute:"] ++
         e.ops.map renderStmt ++ ["Dry run complete, no changes applied."])

/-- The stored row denoted by an INSERT field list. -/
def recOfFields (fields : List (Col × Val)) : StoredRec :=
  fun c => (dget fields c).map Val.stored

/-- Execute one rendered statement against the store; the second component
is the error line when the statement fails (a UNIQUE violation on an
explicit-id INSERT; the exception text is elided).  An UPDATE or DELETE
matching no row succeeds affecting zero rows. -/
def execStmt (fresh : Store → String → ℤ) (st : Store) : Stmt → Store × List String
  | Stmt.del t n => (storeSet st t n none, [])
  | Stmt.upd t sets n =>
    match st t n with
    | none => (st, [])
    | some cur =>
      (storeSet st t n
        (some (fun c =>
          match dget sets c with
          | some v => some v.stored
          | none => cur c)), [])
  | Stmt.ins t fields =>
    match dget fields "id" with
    | some (Val.i n) =>
      match st t n with
      | some _ => (st, ["Error executing " ++ renderStmt (Stmt.ins t fields)])
      | none => (storeSet st t n (some (recOfFields fields)), [])
    | _ =>
      let n := fresh st t
      (storeSet st t n
        (some (fun c => if c = "id" then some ((n : ℤ) : ℚ) else recOfFields fields c)), [])

/-- Execute all statements in sequence (each failure is reported and the
run continues). -/
def execAll (fresh : Store → String → ℤ) (st : Store) : List Stmt → Store × List String
  | [] => (st, [])
  | s :: ss =>
    let x := execStmt fresh st s
    let y := execAll fresh x.1 ss
    (y.1, x.2 ++ y.2)

/-- The apply mode: parse, classify, execute `applyExecutedOps`, report. -/
def applyRun (tcols : String → List Col) (store : Store) (it : List Col → List Col)
    (fns : List Col) (raws : List (List Cell)) (fresh : Store → String → ℤ) :
    Store × List String :=
  match parsePhase fns raws with
  | Except.error idx => (store, [structErr fns idx])
  | Except.ok rows =>
    let e := engine tcols store it rows
    let x := execAll fresh store (applyExecutedOps tcols store it fns raws)
    (x.1, e.msgs ++ x.2 ++ [summaryLine "Import done: " e.changes])

/-- The whole command: dry run echoes and leaves the store untouched;
apply executes. -/
def importRun (tcols : String → List Col) (store : Store) (it : List Col → List Col)
    (fns : List Col) (raws : List (List Cell)) (fresh : Store → String → ℤ)
    (dryRun : Bool) : Store × List String :=
  if dryRun then (store, previewLines tcols store it fns raws)
  else applyRun tcols store it fns raws fresh

/-- A set-iteration order is valid when it permutes the element list. -/
def validIter (it : List Col → List Col) : Prop :=
  ∀ l : List Col, (it l).Perm l

/-- The identity iteration order. -/
def iterA : List Col → List Col := fun l => l

/-- The reversed iteration order (another valid Python set order). -/
def iterB : List Col → List Col := fun l => l.reverse

/-- One comparator step, as a `filterMap` test (used to characterize
`setParts` on comparable data). -/
def diffTest (cur : StoredRec) (d : List (Col × Val)) (c : Col) : Option (Col × Val) :=
  match dget d c, cur c with
  | some v, some o => if exceedsTol o v.toQ then some (c, v) else none
  | _, _ => none

/-- Statements equal up to the order of the SET-clause parts of an UPDATE
(the part whose order follows Python set iteration). -/
def StmtEquiv : Stmt → Stmt → Prop
  | Stmt.upd t1 s1 n1, Stmt.upd t2 s2 n2 => t1 = t2 ∧ s1.Perm s2 ∧ n1 = n2
  | a, b => a = b

/-- `StmtEquiv` lifted to optional statements. -/
def optStmtEquiv : Option Stmt → Option Stmt → Prop
  | some a, some b => StmtEquiv a b
  | none, none => True
  | _, _ => False

/-! ### Concrete fixtures (cells, schemas, stores, rows used by concrete
theorems; all numeric cell values are integers so that the kernel can
evaluate every comparison) -/

/-- A non-numeric text cell (`int` and `float` both raise). -/
def cellS (s : String) : Cell := ⟨s, s, none, none⟩

/-- An integer-text cell (both conversions succeed). -/
def cellI (n : ℤ) : Cell := ⟨toString n, toString n, some n, some (n : ℚ)⟩

/-- A float-text cell (only `float` succeeds). -/
def cellF (q : ℚ) (txt : String) : Cell := ⟨txt, txt, none, some q⟩

/-- The reflected column list of the Home Assistant statistics tables
(identical for both tables). -/
def tcols0 : String → List Col := fun _ =>
  ["id", "created", "created_ts", "metadata_id", "start", "start_ts",
   "mean", "min", "max", "last_reset", "last_reset_ts", "state", "sum"]

/-- The empty store. -/
def store0 : Store := fun _ _ => none

/-- A fresh-id chooser for auto-assigned INSERT ids. -/
def fresh0 : Store → String → ℤ := fun _ _ => 1

/-- CSV row `table=statistics, id=0, metadata_id=3, start_ts=100.0, mean=5.0`. -/
def rowC2 : Row :=
  [("table", some (cellS "statistics")), ("id", some (cellI 0)),
   ("metadata_id", some (cellI 3)), ("start_ts", some (cellF 100 "100.0")),
   ("mean", some (cellF 5 "5.0"))]

/-- Its parsed data dict (in `tcols0` column order). -/
def dC2 : List (Col × Val) :=
  [("id", Val.i 0), ("metadata_id", Val.i 3), ("start_ts", Val.f 100), ("mean", Val.f 5)]

/-- Stored row with `mean = 5`. -/
def curC2 : StoredRec := fun c => if c = "mean" then some 5 else none

/-- Store holding record id 0 of `statistics` with `mean = 5`. -/
def storeC2 : Store := fun t n =>
  if t = "statistics" ∧ n = 0 then some curC2 else none

/-- CSV row `table=statistics, id=0` (identifier present and zero, no data
fields). -/
def rowC3 : Row := [("table", some (cellS "statistics")), ("id", some (cellI 0))]

/-- CSV row `table=statistics, metadata_id=3, start_ts=100.0, mean=5.0`
(no identifier: a pure insert row). -/
def rowC4 : Row :=
  [("table", some (cellS "statistics")), ("metadata_id", some (cellI 3)),
   ("start_ts", some (cellF 100 "100.0")), ("mean", some (cellF 5 "5.0"))]

/-- Header `table, id, mean, min`. -/
def fns5 : List Col := ["table", "id", "mean", "min"]

/-- One raw CSV data row `statistics, 7, 5.0, 6.0`. -/
def raws5 : List (List Cell) :=
  [[cellS "statistics", cellI 7, cellF 5 "5.0", cellF 6 "6.0"]]

/-- Stored row with `mean = 1, min = 2`. -/
def cur5 : StoredRec :=
  fun c => if c = "mean" then some 1 else if c = "min" then some 2 else none

/-- Store holding record id 7 of `statistics` with `mean = 1, min = 2`. -/
def store5 : Store := fun t n =>
  if t = "statistics" ∧ n = 7 then some cur5 else none

/-- CSV row `table=statistics, id=0, mean=5.0` (zero identifier with a data
field). -/
def rowC6 : Row :=
  [("table", some (cellS "statistics")), ("id", some (cellI 0)),
   ("mean", some (cellF 5 "5.0"))]

/-- CSV row `table=statistics, id=42, start_ts=1000.0, mean=3.0` (update
candidate whose id is found nowhere). -/
def rowC7 : Row :=
  [("table", some (cellS "statistics")), ("id", some (cellI 42)),
   ("start_ts", some (cellF 1000 "1000.0")), ("mean", some (cellF 3 "3.0"))]

/-- Its parsed data dict. -/
def dC7 : List (Col × Val) :=
  [("id", Val.i 42), ("start_ts", Val.f 1000), ("mean", Val.f 3)]

/-- A parsed record with no identifier and no anchor fields. -/
def dC8 : List (Col × Val) := [("mean", Val.f 5)]

/-- Header `table, id, mean`. -/
def fns9 : List Col := ["table", "id", "mean"]

/-- One raw data row with two fields under a three-column header. -/
def raws9 : List (List Cell) := [[cellS "statistics", cellI 7]]

/-- One raw data row with four fields under a three-column header. -/
def raws9b : List (List Cell) :=
  [[cellS "statistics", cellI 7, cellF 5 "5.0", cellF 6 "6.0"]]

/-- CSV row with an unknown table name. -/
def rowC10 : Row := [("table", some (cellS "foo")), ("id", some (cellI 7))]

/-- CSV row `table=statistics, id=7, mean=1.0` (update candidate equal to
the stored value). -/
def rowW : Row :=
  [("table", some (cellS "statistics")), ("id", some (cellI 7)),
   ("mean", some (cellF 1 "1.0"))]

/-- Stored row with `mean = 1`. -/
def curW : StoredRec := fun c => if c = "mean" then some 1 else none

/-- Store holding record id 7 of `statistics` with `mean = 1`. -/
def storeW : Store := fun t n =>
  if t = "statistics" ∧ n = 7 then some curW else none

/-- A parsed update candidate `id=7, mean=5` (differs from `cur5.mean = 1`). -/
def dW2 : List (Col × Val) := [("id", Val.i 7), ("mean", Val.f 5)]

/-- A parsed delete candidate `id=9`. -/
def dW3 : List (Col × Val) := [("id", Val.i 9)]

/-- A parsed update candidate `id=9, mean=5` (id found nowhere). -/
def dW6 : List (Col × Val) := [("id", Val.i 9), ("mean", Val.f 5)]

/-- A parsed insert candidate `metadata_id=3, start_ts=100` without
`created_ts`. -/
def dW7 : List (Col × Val) := [("metadata_id", Val.i 3), ("start_ts", Val.f 100)]

/-- A row whose `state` cell is non-numeric text. -/
def rowBad : Row := [("state", some (cellS "abc"))]

/-- One input row bundled with its classification components (the table
name, parsed data, identifier and found stored record), used to state the
amended idempotence property over whole inputs. -/
structure CandRow where
  r : Row
  tn : String
  d : List (Col × Val)
  n : ℤ
  cur : StoredRec

/-- `x` is a found update candidate against `store`: known table, parsed
data with a nonzero identifier and a nonempty data-field set, and a stored
record with comparable values. -/
def IsCand (tcols : String → List Col) (store : Store) (x : CandRow) : Prop :=
  tableVal x.r = some x.tn ∧ knownTable x.tn = true ∧
  (buildData x.r (tcols x.tn)).2 = some x.d ∧
  dget x.d "id" = some (Val.i x.n) ∧ x.n ≠ 0 ∧ dataColsOf x.d ≠ [] ∧
  store x.tn x.n = some x.cur ∧ ∀ c ∈ dataColsOf x.d, (x.cur c).isSome

/-! ### Numeric bridge lemmas -/

/-- The executable comparison agrees with `abs(old - new) > 1e-6`. -/
theorem exceedsTol_iff (o x : ℚ) : exceedsTol o x = true ↔ tol < |o - x| := by
  have ho : (0 : ℚ) < ((o.den : ℕ) : ℚ) := by exact_mod_cast o.den_pos
  have hx : (0 : ℚ) < ((x.den : ℕ) : ℚ) := by exact_mod_cast x.den_pos
  have key : o - x =
      ((o.num * (x.den : ℤ) - x.num * (o.den : ℤ) : ℤ) : ℚ) /
        (((o.den : ℕ) : ℚ) * ((x.den : ℕ) : ℚ)) := by
    conv_lhs => rw [← Rat.num_div_den o, ← Rat.num_div_den x]
    rw [div_sub_div _ _ (ne_of_gt ho) (ne_of_gt hx)]
    push_cast
    ring_nf
  have habs : |((o.num * (x.den : ℤ) - x.num * (o.den : ℤ) : ℤ) : ℚ)| =
      (((o.num * (x.den : ℤ) - x.num * (o.den : ℤ)).natAbs : ℕ) : ℚ) := by
    rw [← Int.cast_abs, Int.abs_eq_natAbs, Int.cast_natCast]
  rw [exceedsTol, decide_eq_true_iff, gt_iff_lt, key, tol, abs_div,
    abs_of_pos (mul_pos ho hx), div_lt_div_iff₀ (by norm_num) (mul_pos ho hx), habs, one_mul]
  exact_mod_cast Iff.rfl

/-- The executable rounding agrees with `⌊q * 10^6 + 1/2⌋`. -/
theorem round6Z_eq (q : ℚ) : round6Z q = ⌊q * 1000000 + 1 / 2⌋ := by
  have hd : (0 : ℚ) < ((q.den : ℕ) : ℚ) := by exact_mod_cast q.den_pos
  have key : q * 1000000 + 1 / 2 =
      ((2000000 * q.num + (q.den : ℤ) : ℤ) : ℚ) / (((2 * q.den : ℕ) : ℕ) : ℚ) := by
    conv_lhs => rw [← Rat.num_div_den q]
    push_cast
    field_simp
    ring
  rw [round6Z, key, Rat.floor_intCast_div_natCast]
  norm_cast

/-- Rounding to 6 decimal places moves a value by at most `5e-7`. -/
theorem abs_round6_sub_le (q : ℚ) : |round6 q - q| ≤ 1 / 2000000 := by
  have h1 : ((⌊q * 1000000 + 1 / 2⌋ : ℤ) : ℚ) ≤ q * 1000000 + 1 / 2 := Int.floor_le _
  have h2 : q * 1000000 + 1 / 2 < (⌊q * 1000000 + 1 / 2⌋ : ℤ) + 1 := Int.lt_floor_add_one _
  rw [round6, round6Z_eq, abs_le]
  constructor
  · linarith
  · linarith

/-- A value re-read from its rendered SQL text never differs from the
original by more than the tolerance. -/
theorem stored_not_exceeds (v : Val) : exceedsTol (Val.stored v) v.toQ = false := by
  have h : ¬ tol < |Val.stored v - v.toQ| := by
    cases v with
    | i n =>
      simp only [Val.stored, Val.toQ, sub_self, abs_zero]
      norm_num [tol]
    | f q =>
      have hb := abs_round6_sub_le q
      simp only [Val.stored, Val.toQ]
      intro hlt
      rw [tol] at hlt
      linarith
  cases hE : exceedsTol (Val.stored v) v.toQ
  · rfl
  · exact absurd ((exceedsTol_iff _ _).1 hE) h

/-! ### Dictionary and comparator lemmas -/

theorem dget_cons (p : Col × Val) (ps : List (Col × Val)) (c : Col) :
    dget (p :: ps) c = if p.1 = c then some p.2 else dget ps c := by
  by_cases h : p.1 = c <;> simp [dget, List.find?_cons, h]

theorem dget_isSome_of_mem_keys (d : List (Col × Val)) (c : Col)
    (h : c ∈ d.map Prod.fst) : ∃ v, dget d c = some v := by
  induction d with
  | nil => simp at h
  | cons p ps ih =>
    rw [dget_cons]
    by_cases hc : p.1 = c
    · exact ⟨p.2, by rw [if_pos hc]⟩
    · rw [if_neg hc]
      apply ih
      rcases List.mem_map.1 h with ⟨q, hq, hqc⟩
      rcases List.mem_cons.1 hq with rfl | hq2
      · exact absurd hqc hc
      · exact List.mem_map.2 ⟨q, hq2, hqc⟩

theorem mem_of_dget_eq_some (d : List (Col × Val)) (c : Col) (v : Val)
    (h : dget d c = some v) : (c, v) ∈ d := by
  induction d with
  | nil => simp [dget] at h
  | cons p ps ih =>
    rw [dget_cons] at h
    by_cases hc : p.1 = c
    · rw [if_pos hc] at h
      injection h with h2
      cases p
      cases hc
      cases h2
      exact List.mem_cons_self _ _
    · rw [if_neg hc] at h
      exact List.mem_cons_of_mem _ (ih h)

theorem mem_dataColsOf (d : List (Col × Val)) (c : Col) :
    c ∈ dataColsOf d ↔ c ∈ d.map Prod.fst ∧ c ∉ metadataCols := by
  simp [dataColsOf, List.mem_filter]

theorem setParts_eq_filterMap (cur : StoredRec) (d : List (Col × Val)) (l : List Col)
    (h : ∀ c ∈ l, (dget d c).isSome ∧ (cur c).isSome) :
    setParts cur d l = some (l.filterMap (diffTest cur d)) := by
  induction l with
  | nil => rfl
  | cons c cs ih =>
    rcases h c (List.mem_cons_self c cs) with ⟨h1, h2⟩
    rcases Option.isSome_iff_exists.1 h1 with ⟨v, hv⟩
    rcases Option.isSome_iff_exists.1 h2 with ⟨o, ho⟩
    have htail := ih (fun x hx => h x (List.mem_cons_of_mem _ hx))
    by_cases hE : exceedsTol o v.toQ <;>
      simp [setParts, List.filterMap_cons, diffTest, hv, ho, hE, htail]

theorem existsMemCons {α : Type} (p : α → Prop) (a : α) (l : List α) :
    (∃ x ∈ a :: l, p x) ↔ p a ∨ ∃ x ∈ l, p x := by
  simp [List.mem_cons, or_and_right, exists_or]

theorem setParts_eq_none_iff (cur : StoredRec) (d : List (Col × Val)) (l : List Col) :
    setParts cur d l = none ↔ ∃ c ∈ l, dget d c = none ∨ cur c = none := by
  induction l with
  | nil => simp [setParts]
  | cons c cs ih =>
    rw [existsMemCons, ← ih]
    cases hv : dget d c with
    | none => simp [setParts, hv]
    | some v =>
      cases ho : cur c with
      | none => simp [setParts, hv, ho]
      | some o =>
        by_cases hE : exceedsTol o v.toQ <;>
          simp [setParts, hv, ho, hE, Option.map_eq_none']

theorem diffTest_eq_some_iff (cur : StoredRec) (d : List (Col × Val)) (c : Col)
    (p : Col × Val) :
    diffTest cur d c = some p ↔
      p.1 = c ∧ dget d c = some p.2 ∧ ∃ o, cur c = some o ∧ exceedsTol o p.2.toQ = true := by
  cases hv : dget d c with
  | none => simp [diffTest, hv]
  | some v =>
    cases ho : cur c with
    | none => simp [diffTest, hv, ho]
    | some o =>
      by_cases hE : exceedsTol o v.toQ
      · simp only [diffTest, hv, ho, if_pos hE]
        constructor
        · intro h
          injection h with h2
          cases h2
          exact ⟨rfl, rfl, o, rfl, hE⟩
        · rintro ⟨h1, h2, o2, ho2, hE2⟩
          injection h2 with h3
          cases p
          cases h1
          cases h3
          rfl
      · simp only [diffTest, hv, ho, if_neg hE]
        constructor
        · intro h
          cases h
        · rintro ⟨h1, h2, o2, ho2, hE2⟩
          injection h2 with h3
          injection ho2 with h4
          cases h3
          cases h4
          exact absurd hE2 hE

/-! ### Iteration-order equivalence lemmas -/

theorem stmtEquiv_refl (s : Stmt) : StmtEquiv s s := by
  cases s with
  | del t n => simp [StmtEquiv]
  | ins t fields => simp [StmtEquiv]
  | upd t sets n => exact ⟨rfl, List.Perm.refl _, rfl⟩

theorem optStmtEquiv_refl (s : Option Stmt) : optStmtEquiv s s := by
  cases s with
  | none => trivial
  | some a => exact stmtEquiv_refl a

theorem classifyData_iter_equiv (store : Store) (it1 it2 : List Col → List Col)
    (tn : String) (d : List (Col × Val)) (h1 : validIter it1) (h2 : validIter it2) :
    (classifyData store it1 tn d).msgs = (classifyData store it2 tn d).msgs ∧
    (classifyData store it1 tn d).delta = (classifyData store it2 tn d).delta ∧
    optStmtEquiv (classifyData store it1 tn d).stmt (classifyData store it2 tn d).stmt := by
  have hperm : (it1 (dataColsOf d)).Perm (it2 (dataColsOf d)) :=
    (h1 _).trans (h2 _).symm
  cases ht : truthyId (dget d "id") with
  | none =>
    by_cases hm : dget d "metadata_id" = none ∨ dget d "start_ts" = none <;>
      simp [classifyData, ht, hm, optStmtEquiv, StmtEquiv]
  | some n =>
    by_cases he : (dataColsOf d).isEmpty
    · simp [classifyData, ht, he, optStmtEquiv, StmtEquiv]
    · cases hs : store tn n with
      | none => simp [classifyData, ht, he, hs, optStmtEquiv, StmtEquiv]
      | some cur =>
        cases hsp1 : setParts cur d (it1 (dataColsOf d)) with
        | none =>
          have hsp2 : setParts cur d (it2 (dataColsOf d)) = none := by
            rw [setParts_eq_none_iff] at hsp1 ⊢
            rcases hsp1 with ⟨c, hc, hbad⟩
            exact ⟨c, hperm.mem_iff.1 hc, hbad⟩
          simp [classifyData, ht, he, hs, hsp1, hsp2, optStmtEquiv]
        | some s1 =>
          have hcomp : ∀ c ∈ it1 (dataColsOf d), (dget d c).isSome ∧ (cur c).isSome := by
            intro c hc
            rcases hno : dget d c with _ | v
            · have : setParts cur d (it1 (dataColsOf d)) = none :=
                (setParts_eq_none_iff _ _ _).2 ⟨c, hc, Or.inl hno⟩
              rw [hsp1] at this
              cases this
            rcases hno2 : cur c with _ | o
            · have : setParts cur d (it1 (dataColsOf d)) = none :=
                (setParts_eq_none_iff _ _ _).2 ⟨c, hc, Or.inr hno2⟩
              rw [hsp1] at this
              cases this
            exact ⟨rfl, rfl⟩
          have hcomp2 : ∀ c ∈ it2 (dataColsOf d), (dget d c).isSome ∧ (cur c).isSome :=
            fun c hc => hcomp c (hperm.mem_iff.2 hc)
          have e1 := setParts_eq_filterMap cur d _ hcomp
          have e2 := setParts_eq_filterMap cur d _ hcomp2
          rw [hsp1] at e1
          injection e1 with e1
          have hps : s1.Perm ((it2 (dataColsOf d)).filterMap (diffTest cur d)) :=
            e1 ▸ List.Perm.filterMap _ hperm
          have hie : s1.isEmpty =
              ((it2 (dataColsOf d)).filterMap (diffTest cur d)).isEmpty := by
            cases hs1 : s1 with
            | nil =>
              cases hs2 : (it2 (dataColsOf d)).filterMap (diffTest cur d) with
              | nil => rfl
              | cons b bs =>
                rw [hs1, hs2] at hps
                simpa using hps.length_eq
            | cons a as =>
              cases hs2 : (it2 (dataColsOf d)).filterMap (diffTest cur d) with
              | nil =>
                rw [hs1, hs2] at hps
                simpa using hps.length_eq
              | cons b bs => rfl
          by_cases hs1e : s1.isEmpty
          · simp [classifyData, ht, he, hs, hsp1, e2, hs1e, ← hie, optStmtEquiv]
          · simp [classifyData, ht, he, hs, hsp1, e2, hs1e, ← hie, optStmtEquiv, StmtEquiv]
            exact hps

theorem processRow_iter_equiv (tcols : String → List Col) (store : Store)
    (it1 it2 : List Col → List Col) (r : Row) (h1 : validIter it1) (h2 : validIter it2) :
    (processRow tcols store it1 r).msgs = (processRow tcols store it2 r).msgs ∧
    (processRow tcols store it1 r).delta = (processRow tcols store it2 r).delta ∧
    optStmtEquiv (processRow tcols store it1 r).stmt (processRow tcols store it2 r).stmt := by
  cases htv : tableVal r with
  | none => simp [processRow, htv, optStmtEquiv]
  | some tn =>
    by_cases hk : knownTable tn
    · cases hb : (buildData r (tcols tn)).2 with
      | none => simp [processRow, htv, hk, hb, optStmtEquiv]
      | some d =>
        have hc := classifyData_iter_equiv store it1 it2 tn d h1 h2
        simp only [processRow, htv, hk, if_true, hb]
        exact ⟨by rw [hc.1], hc.2.1, hc.2.2⟩
    · simp [processRow, htv, hk, optStmtEquiv]

theorem engine_iter_equiv (tcols : String → List Col) (store : Store)
    (it1 it2 : List Col → List Col) (rows : List Row)
    (h1 : validIter it1) (h2 : validIter it2) :
    (engine tcols store it1 rows).msgs = (engine tcols store it2 rows).msgs ∧
    (engine tcols store it1 rows).changes = (engine tcols store it2 rows).changes ∧
    List.Forall₂ StmtEquiv (engine tcols store it1 rows).ops
      (engine tcols store it2 rows).ops := by
  induction rows with
  | nil => exact ⟨rfl, rfl, List.Forall₂.nil⟩
  | cons r rs ih =>
    have hr := processRow_iter_equiv tcols store it1 it2 r h1 h2
    refine ⟨?_, ?_, ?_⟩
    · show (processRow tcols store it1 r).msgs ++ _ = (processRow tcols store it2 r).msgs ++ _
      rw [hr.1, ih.1]
    · show addC (processRow tcols store it1 r).delta _ = addC (processRow tcols store it2 r).delta _
      rw [hr.2.1, ih.2.1]
    · show List.Forall₂ StmtEquiv ((processRow tcols store it1 r).stmt.toList ++ _)
        ((processRow tcols store it2 r).stmt.toList ++ _)
      apply List.rel_append ?_ ih.2.2
      have ho := hr.2.2
      rcases hso1 : (processRow tcols store it1 r).stmt with _ | s1 <;>
        rcases hso2 : (processRow tcols store it2 r).stmt with _ | s2 <;>
          rw [hso1, hso2] at ho
      · exact List.Forall₂.nil
      · cases ho
      · cases ho
      · exact List.Forall₂.cons ho List.Forall₂.nil

/-! ### Parse-phase lemmas -/

theorem parseFrom_error (fns : List Col) (raws : List (List Cell)) (idx k : ℕ)
    (raw : List Cell) (hok : ∀ r2 ∈ raws.take k, r2.length ≤ fns.length)
    (hget : raws[k]? = some raw) (hlong : fns.length < raw.length) :
    parseFrom fns idx raws = Except.error (idx + k) := by
  induction raws generalizing idx k with
  | nil => simp at hget
  | cons r0 rest ih =>
    cases k with
    | zero =>
      rw [List.getElem?_cons_zero] at hget
      injection hget with h
      subst h
      have hne : dictLen fns r0 ≠ fns.length := by
        rw [dictLen, if_pos hlong]
        omega
      simp [parseFrom, hne]
    | succ k2 =>
      have hr0 : r0.length ≤ fns.length := by
        apply hok r0
        rw [List.take_succ_cons]
        exact List.mem_cons_self _ _
      have hdl : ¬ dictLen fns r0 ≠ fns.length := by
        rw [dictLen, if_neg (by omega)]
        omega
      rw [List.getElem?_cons_succ] at hget
      have htail := ih (idx + 1) k2
        (fun r2 h => hok r2 (by rw [List.take_succ_cons]; exact List.mem_cons_of_mem _ h))
        hget
      simp only [parseFrom, if_neg hdl, htail]
      rw [show idx + 1 + k2 = idx + (k2 + 1) by omega]
      rfl

theorem buildData_convFail (r : Row) (c : Col) (cs : List Col) (cell : Cell)
    (hg : rowGet r c = some (some cell)) (hne : cell.stripped ≠ "")
    (hconv : convFn c cell = none) :
    buildData r (c :: cs) =
      (("Warning: Could not convert " ++ c ++ "=" ++ cell.stripped ++ ", skipping") ::
        (buildData r cs).1, (buildData r cs).2) := by
  simp [buildData, hg, hne, hconv]

/-- C8: a record with no identifier that is missing `metadata_id` or
`start_ts` is rejected with a warning, contributes no mutation statement,
and leaves every summary counter unchanged. -/
theorem c8_reject_missing_anchor (store : Store) (it : List Col → List Col)
    (tn : String) (d : List (Col × Val)) (hid : dget d "id" = none)
    (hmiss : dget d "metadata_id" = none ∨ dget d "start_ts" = none) :
    classifyData store it tn d =
      ⟨["Warning: missing metadata_id or start_ts for insert, skipping"], none, {}⟩ := by
  have ht : truthyId (dget d "id") = none := by rw [hid]; rfl
  simp [classifyData, ht, hmiss]

/-- Witness for C8: a record carrying only `mean` is rejected. -/
theorem c8_witness :
    dget dC8 "id" = none ∧
    classifyData store0 iterA "statistics" dC8 =
      ⟨["Warning: missing metadata_id or start_ts for insert, skipping"], none, {}⟩ :=
  ⟨rfl, c8_reject_missing_anchor store0 iterA "statistics" dC8 rfl (Or.inl rfl)⟩

/-- C10: a row whose `table` value is not one of the two known table names
(including a missing or `None` value) is skipped with a message, appends no
mutation statement, and changes no summary counter. -/
theorem c10_invalid_table_skip (tcols : String → List Col) (store : Store)
    (it : List Col → List Col) (r : Row)
    (h : ∀ cell : Cell, rowGet r "table" = some (some cell) → knownTable cell.raw = false) :
    processRow tcols store it r = ⟨[invalidTableMsg r], none, {}⟩ := by
  cases hg : rowGet r "table" with
  | none => simp [processRow, tableVal, hg]
  | some oc =>
    cases oc with
    | none => simp [processRow, tableVal, hg]
    | some cell =>
      have hk := h cell hg
      simp [processRow, tableVal, hg, hk]

/-- Witness for C10: a row with `table=foo` is skipped. -/
theorem c10_witness :
    processRow tcols0 store0 iterA rowC10 =
      ⟨["Skipping row with invalid table: foo"], none, {}⟩ ∧
    (processRow tcols0 store0 iterA rowC10).delta = {} :=
  ⟨(c10_invalid_table_skip tcols0 store0 iterA rowC10
      (fun cell h => by
        have : cell = cellS "foo" := by
          have h2 : (some (some (cellS "foo")) : Option (Option Cell)) = some (some cell) := h ▸ rfl
          injection h2 with h3
          injection h3 with h4
          exact h4.symm
        rw [this]
        decide)).trans (by decide),
   by
    rw [c10_invalid_table_skip tcols0 store0 iterA rowC10
      (fun cell h => by
        have h2 : (some (some (cellS "foo")) : Option (Option Cell)) = some (some cell) := h ▸ rfl
        injection h2 with h3
        injection h3 with h4
        rw [← h4]
        decide)]⟩


/-- C3 counterexample: the row `table=statistics, id=0` parses to a record
whose identifier field is present (value 0) with an empty data-field set,
yet the classifier yields no delete: Python truthiness treats `id = 0` as
"no identifier" and the record is rejected for missing anchor fields. -/
theorem c3_counterexample :
    (buildData rowC3 (tcols0 "statistics")).2 = some [("id", Val.i 0)] ∧
    dget [("id", Val.i 0)] "id" = some (Val.i 0) ∧
    dataColsOf [("id", Val.i 0)] = [] ∧
    (engine tcols0 store0 iterA [rowC3]).changes = {} ∧
    (engine tcols0 store0 iterA [rowC3]).ops = [] ∧
    (engine tcols0 store0 iterA [rowC3]).msgs =
      ["Warning: missing metadata_id or start_ts for insert, skipping"] := by
  refine ⟨rfl, rfl, rfl, ?_, rfl, rfl⟩
  decide

/-- C3 (amended: the identifier must also be nonzero): a parsed record with
a nonzero identifier and an empty data-field set always classifies as a
DELETE of that identifier. -/
theorem c3_delete_classification (store : Store) (it : List Col → List Col)
    (tn : String) (d : List (Col × Val)) (n : ℤ)
    (hid : dget d "id" = some (Val.i n)) (hn : n ≠ 0) (hdc : dataColsOf d = []) :
    classifyData store it tn d = ⟨[], some (Stmt.del tn n), {delete := 1}⟩ := by
  have ht : truthyId (dget d "id") = some n := by
    rw [hid, truthyId, if_neg hn]
  simp [classifyData, ht, hdc]

/-- Witness for C3: the record `id=9` classifies as `DELETE ... id = 9`. -/
theorem c3_witness :
    classifyData store0 iterA "statistics" dW3 =
      ⟨[], some (Stmt.del "statistics" 9), {delete := 1}⟩ :=
  c3_delete_classification store0 iterA "statistics" dW3 9 rfl (by decide) rfl

/-- C6 counterexample: the row `table=statistics, id=0, mean=5.0` is an
update candidate in the spec's sense (identifier field present, `mean` a
data field) whose identifier is not in the store, yet no insert is produced
and the insert counter stays 0: Python truthiness routes `id = 0` to the
insert branch, which rejects the record for missing anchor fields. -/
theorem c6_counterexample :
    (buildData rowC6 (tcols0 "statistics")).2 = some [("id", Val.i 0), ("mean", Val.f 5)] ∧
    dget [("id", Val.i 0), ("mean", Val.f 5)] "id" = some (Val.i 0) ∧
    dataColsOf [("id", Val.i 0), ("mean", Val.f 5)] = ["mean"] ∧
    store0 "statistics" 0 = none ∧
    (engine tcols0 store0 iterA [rowC6]).changes = {} ∧
    (engine tcols0 store0 iterA [rowC6]).ops = [] := by
  refine ⟨rfl, rfl, rfl, rfl, ?_, rfl⟩
  decide

/-- C6 (amended: the update candidate's identifier must be nonzero): an
update candidate with nonzero identifier not found in the store does not
fail; it is reclassified as an INSERT built from exactly the record's
supplied fields, and counted as an insert. -/
theorem c6_reclassify_insert (store : Store) (it : List Col → List Col)
    (tn : String) (d : List (Col × Val)) (n : ℤ)
    (hid : dget d "id" = some (Val.i n)) (hn : n ≠ 0) (hdc : dataColsOf d ≠ [])
    (hnf : store tn n = none) :
    classifyData store it tn d = ⟨[], some (Stmt.ins tn d), {insert := 1}⟩ := by
  have ht : truthyId (dget d "id") = some n := by
    rw [hid, truthyId, if_neg hn]
  have he : (dataColsOf d).isEmpty = false := by
    cases hdc2 : dataColsOf d with
    | nil => exact absurd hdc2 hdc
    | cons a as => rfl
  simp [classifyData, ht, he, hnf]

/-- Witness for C6: `id=9, mean=5` against the empty store becomes an
INSERT. -/
theorem c6_witness :
    store0 "statistics" 9 = none ∧
    classifyData store0 iterA "statistics" dW6 =
      ⟨[], some (Stmt.ins "statistics" dW6), {insert := 1}⟩ :=
  ⟨rfl, c6_reclassify_insert store0 iterA "statistics" dW6 9 rfl (by decide) (by decide) rfl⟩

/-- C7 counterexample: the row `table=statistics, id=42, start_ts=1000.0,
mean=3.0` against a store without id 42 makes the engine emit an INSERT
descriptor whose field list has no `created_ts` at all, although the
record supplied `start_ts = 1000`: the reclassified-insert path skips the
`created_ts` default. -/
theorem c7_counterexample :
    (engine tcols0 store0 iterA [rowC7]).ops = [Stmt.ins "statistics" dC7] ∧
    (engine tcols0 store0 iterA [rowC7]).changes = {insert := 1} ∧
    dget dC7 "created_ts" = none ∧
    dget dC7 "start_ts" = some (Val.f 1000) := by
  refine ⟨?_, ?_, rfl, rfl⟩ <;> decide

/-- C7 (amended: restricted to inserts from records with no truthy
identifier): on the insert path, a record without `created_ts` gets
`created_ts` defaulted to its `start_ts` value in the INSERT descriptor. -/
theorem c7_created_ts_default (store : Store) (it : List Col → List Col)
    (tn : String) (d : List (Col × Val)) (mv sv : Val)
    (hid : truthyId (dget d "id") = none)
    (hm : dget d "metadata_id" = some mv) (hs : dget d "start_ts" = some sv)
    (hc : dget d "created_ts" = none) :
    classifyData store it tn d =
      ⟨[], some (Stmt.ins tn (d ++ [("created_ts", sv)])), {insert := 1}⟩ ∧
    dget (d ++ [("created_ts", sv)]) "created_ts" = some sv := by
  constructor
  · simp [classifyData, hid, hm, hs, setdefaultCreated, hc]
  · have hfind : (d.find? (fun p => p.1 == "created_ts")) = none := by
      rcases hf : d.find? (fun p => p.1 == "created_ts") with _ | p
      · exact hf
      · rw [dget, hf] at hc
        cases hc
    rw [dget, List.find?_append, hfind]
    simp

/-- Witness for C7: `metadata_id=3, start_ts=100` inserts with
`created_ts = 100` appended. -/
theorem c7_witness :
    dget dW7 "created_ts" = none ∧
    classifyData store0 iterA "statistics" dW7 =
      ⟨[], some (Stmt.ins "statistics" (dW7 ++ [("created_ts", Val.f 100)])), {insert := 1}⟩ ∧
    dget (dW7 ++ [("created_ts", Val.f 100)]) "created_ts" = some (Val.f 100) :=
  ⟨rfl,
   (c7_created_ts_default store0 iterA "statistics" dW7 (Val.i 3) (Val.f 100)
      rfl rfl rfl rfl).1,
   (c7_created_ts_default store0 iterA "statistics" dW7 (Val.i 3) (Val.f 100)
      rfl rfl rfl rfl).2⟩

/-- C2 counterexample: the row `table=statistics, id=0, metadata_id=3,
start_ts=100.0, mean=5.0` is an update candidate in the spec's sense
(identifier field present, `mean` a data field, stored record id 0 found
with `mean` differing by 0 ≤ 1e-6), yet the engine produces an INSERT and
no skip: Python truthiness treats `id = 0` as "no identifier". -/
theorem c2_counterexample :
    (buildData rowC2 (tcols0 "statistics")).2 = some dC2 ∧
    dget dC2 "id" = some (Val.i 0) ∧
    dataColsOf dC2 = ["mean"] ∧
    storeC2 "statistics" 0 = some curC2 ∧
    curC2 "mean" = some 5 ∧ dget dC2 "mean" = some (Val.f 5) ∧
    |(5 : ℚ) - (Val.f 5).toQ| ≤ tol ∧
    (engine tcols0 storeC2 iterA [rowC2]).changes = {insert := 1} ∧
    (engine tcols0 storeC2 iterA [rowC2]).changes.skip = 0 := by
  refine ⟨rfl, rfl, rfl, rfl, rfl, rfl, ?_, by decide, by decide⟩
  simp [Val.toQ, tol]

/-- C2 (amended: the update candidate's identifier must be nonzero): for
an update candidate with nonzero identifier, nonempty data-field set and
found stored record (with comparable stored values), if every data field
differs from the stored value by at most 1e-6 the outcome is a skip with
no statement; otherwise the outcome is an UPDATE carrying exactly the
fields whose difference exceeds 1e-6 (a minimal diff, never a full-row
replace). -/
theorem c2_tolerance_minimal_diff (store : Store) (it : List Col → List Col)
    (tn : String) (d : List (Col × Val)) (n : ℤ) (cur : StoredRec)
    (hit : validIter it)
    (hid : dget d "id" = some (Val.i n)) (hn : n ≠ 0)
    (hdc : dataColsOf d ≠ [])
    (hcur : store tn n = some cur)
    (hcomp : ∀ c ∈ dataColsOf d, (cur c).isSome) :
    ((∀ c ∈ dataColsOf d, ∀ v o, dget d c = some v → cur c = some o → |o - v.toQ| ≤ tol) →
      classifyData store it tn d = ⟨[], none, {skip := 1}⟩) ∧
    ((∃ c ∈ dataColsOf d, ∃ v o, dget d c = some v ∧ cur c = some o ∧ tol < |o - v.toQ|) →
      ∃ sets, classifyData store it tn d = ⟨[], some (Stmt.upd tn sets n), {update := 1}⟩ ∧
        (∀ c v, (c, v) ∈ sets ↔
          c ∈ dataColsOf d ∧ dget d c = some v ∧
            ∃ o, cur c = some o ∧ tol < |o - v.toQ|)) := by
  have ht : truthyId (dget d "id") = some n := by
    rw [hid, truthyId, if_neg hn]
  have he : (dataColsOf d).isEmpty = false := by
    cases hdc2 : dataColsOf d with
    | nil => exact absurd hdc2 hdc
    | cons a as => rfl
  have hcomp2 : ∀ c ∈ it (dataColsOf d), (dget d c).isSome ∧ (cur c).isSome := by
    intro c hc
    have hc2 : c ∈ dataColsOf d := (hit (dataColsOf d)).mem_iff.1 hc
    refine ⟨?_, hcomp c hc2⟩
    rcases dget_isSome_of_mem_keys d c ((mem_dataColsOf d c).1 hc2).1 with ⟨v, hv⟩
    rw [hv]
    rfl
  have hsp := setParts_eq_filterMap cur d (it (dataColsOf d)) hcomp2
  have mem_iff : ∀ c v, (c, v) ∈ (it (dataColsOf d)).filterMap (diffTest cur d) ↔
      c ∈ dataColsOf d ∧ dget d c = some v ∧ ∃ o, cur c = some o ∧ tol < |o - v.toQ| := by
    intro c v
    rw [List.mem_filterMap]
    constructor
    · rintro ⟨a, ha, hd⟩
      rw [diffTest_eq_some_iff] at hd
      rcases hd with ⟨h1, h2, o, ho, hE⟩
      cases h1
      exact ⟨(hit (dataColsOf d)).mem_iff.1 ha, h2, o, ho, (exceedsTol_iff _ _).1 hE⟩
    · rintro ⟨hc, hv, o, ho, hlt⟩
      refine ⟨c, (hit (dataColsOf d)).mem_iff.2 hc, ?_⟩
      rw [diffTest_eq_some_iff]
      exact ⟨rfl, hv, o, ho, (exceedsTol_iff _ _).2 hlt⟩
  constructor
  · intro hall
    have hnil : (it (dataColsOf d)).filterMap (diffTest cur d) = [] := by
      rw [List.filterMap_eq_nil_iff]
      intro a ha
      rcases hcomp2 a ha with ⟨h1, h2⟩
      rcases Option.isSome_iff_exists.1 h1 with ⟨v, hv⟩
      rcases Option.isSome_iff_exists.1 h2 with ⟨o, ho⟩
      have hle := hall a ((hit (dataColsOf d)).mem_iff.1 ha) v o hv ho
      have hEf : exceedsTol o v.toQ = false := by
        cases hE : exceedsTol o v.toQ
        · rfl
        · exact absurd ((exceedsTol_iff _ _).1 hE) (not_lt.2 hle)
      simp [diffTest, hv, ho, hEf]
    rw [hnil] at hsp
    simp [classifyData, ht, he, hcur, hsp]
  · intro hex
    rcases hex with ⟨c, hc, v, o, hv, ho, hlt⟩
    have hmem : (c, v) ∈ (it (dataColsOf d)).filterMap (diffTest cur d) :=
      (mem_iff c v).2 ⟨hc, hv, o, ho, hlt⟩
    have hne : ((it (dataColsOf d)).filterMap (diffTest cur d)).isEmpty = false := by
      cases hs0 : (it (dataColsOf d)).filterMap (diffTest cur d) with
      | nil =>
        rw [hs0] at hmem
        cases hmem
      | cons a as => rfl
    refine ⟨(it (dataColsOf d)).filterMap (diffTest cur d), ?_, mem_iff⟩
    simp [classifyData, ht, he, hcur, hsp, hne]

/-- Witness for C2: `id=7, mean=5` against stored `mean=1` yields an
update. -/
theorem c2_witness :
    validIter iterA ∧
    (classifyData store5 iterA "statistics" dW2).delta = {update := 1} := by
  refine ⟨fun l => List.Perm.refl l, ?_⟩
  rcases (c2_tolerance_minimal_diff store5 iterA "statistics" dW2 7 cur5
      (fun l => List.Perm.refl l) rfl (by decide) (by decide) rfl
      (by decide)).2
      ⟨"mean", by decide, Val.f 5, 1, rfl, rfl, (exceedsTol_iff 1 (Val.f 5).toQ).1 (by decide)⟩
    with ⟨sets, hcl, hmem⟩
  rw [hcl]

/-- Processing one found update candidate: its only statement is an UPDATE
at its own key, executing that statement against any store holding the
candidate record yields a definite next record, and re-processing the row
against any store holding that next record yields a skip. -/
theorem row_step (tcols : String → List Col) (store : Store) (it : List Col → List Col)
    (fresh : Store → String → ℤ) (r : Row) (tn : String) (d : List (Col × Val))
    (n : ℤ) (cur : StoredRec)
    (hit : validIter it)
    (htv : tableVal r = some tn) (hk : knownTable tn = true)
    (hb : (buildData r (tcols tn)).2 = some d)
    (hid : dget d "id" = some (Val.i n)) (hn : n ≠ 0)
    (hdc : dataColsOf d ≠ [])
    (hcur : store tn n = some cur)
    (hcomp : ∀ c ∈ dataColsOf d, (cur c).isSome) :
    ∃ next : StoredRec,
      (∀ s ∈ (processRow tcols store it r).stmt.toList, ∃ sets, s = Stmt.upd tn sets n) ∧
      (∀ st : Store, st tn n = some cur →
        (execAll fresh st (processRow tcols store it r).stmt.toList).1 tn n = some next) ∧
      (∀ st2 : Store, st2 tn n = some next →
        processRow tcols st2 it r =
          ⟨(buildData r (tcols tn)).1 ++ [], none, {skip := 1}⟩) := by
  have ht : truthyId (dget d "id") = some n := by
    rw [hid, truthyId, if_neg hn]
  have he : (dataColsOf d).isEmpty = false := by
    cases hdc2 : dataColsOf d with
    | nil => exact absurd hdc2 hdc
    | cons a as => rfl
  have hcomp2 : ∀ c ∈ it (dataColsOf d), (dget d c).isSome ∧ (cur c).isSome := by
    intro c hc
    have hc2 : c ∈ dataColsOf d := (hit (dataColsOf d)).mem_iff.1 hc
    refine ⟨?_, hcomp c hc2⟩
    rcases dget_isSome_of_mem_keys d c ((mem_dataColsOf d c).1 hc2).1 with ⟨v, hv⟩
    rw [hv]
    rfl
  have hsp := setParts_eq_filterMap cur d (it (dataColsOf d)) hcomp2
  by_cases hnil0 : (it (dataColsOf d)).filterMap (diffTest cur d) = []
  · -- the row is already a skip: nothing is executed and the store record
    -- the row compares against stays `cur`
    rw [hnil0] at hsp
    have hcls : classifyData store it tn d = ⟨[], none, {skip := 1}⟩ := by
      simp [classifyData, ht, he, hcur, hsp]
    have hstmt : (processRow tcols store it r).stmt = none := by
      simp [processRow, htv, hk, hb, hcls]
    refine ⟨cur, ?_, ?_, ?_⟩
    · intro s hs
      rw [hstmt] at hs
      cases hs
    · intro st hst
      rw [hstmt]
      exact hst
    · intro st2 h2
      have hcls2 : classifyData st2 it tn d = ⟨[], none, {skip := 1}⟩ := by
        simp [classifyData, ht, he, h2, hsp]
      simp [processRow, htv, hk, hb, hcls2]
  · -- the row is an UPDATE at key (tn, n); executing it rewrites exactly the
    -- differing fields with their 6-decimal renderings
    have hne : ((it (dataColsOf d)).filterMap (diffTest cur d)).isEmpty = false := by
      cases hs0 : (it (dataColsOf d)).filterMap (diffTest cur d) with
      | nil => exact absurd hs0 hnil0
      | cons a as => rfl
    set sets := (it (dataColsOf d)).filterMap (diffTest cur d) with hsets
    have hcls : classifyData store it tn d =
        ⟨[], some (Stmt.upd tn sets n), {update := 1}⟩ := by
      simp [classifyData, ht, he, hcur, hsp, hne]
    have hstmt : (processRow tcols store it r).stmt = some (Stmt.upd tn sets n) := by
      simp [processRow, htv, hk, hb, hcls]
    set cur2 : StoredRec := fun c =>
      match dget sets c with
      | some v => some v.stored
      | none => cur c with hcur2
    refine ⟨cur2, ?_, ?_, ?_⟩
    · intro s hs
      rw [hstmt] at hs
      rcases List.mem_singleton.1 hs with rfl
      exact ⟨sets, rfl⟩
    · intro st hst
      rw [hstmt]
      simp [execAll, execStmt, hst, storeSet, hcur2]
    · intro st2 h2
      have hcomp2b : ∀ c ∈ it (dataColsOf d), (dget d c).isSome ∧ (cur2 c).isSome := by
        intro c hc
        refine ⟨(hcomp2 c hc).1, ?_⟩
        rw [hcur2]
        cases hg : dget sets c with
        | some w => simp [hg]
        | none => simpa [hg] using (hcomp2 c hc).2
      have hsp2 := setParts_eq_filterMap cur2 d (it (dataColsOf d)) hcomp2b
      have hnil2 : (it (dataColsOf d)).filterMap (diffTest cur2 d) = [] := by
        rw [List.filterMap_eq_nil_iff]
        intro a ha
        rcases Option.isSome_iff_exists.1 (hcomp2 a ha).1 with ⟨v, hv⟩
        cases hg : dget sets a with
        | some w =>
          have hmemw : (a, w) ∈ sets := mem_of_dget_eq_some _ _ _ hg
          rw [hsets] at hmemw
          rcases List.mem_filterMap.1 hmemw with ⟨b, hb2, hdt⟩
          rw [diffTest_eq_some_iff] at hdt
          rcases hdt with ⟨h1, h2b, o, ho, hE⟩
          have hab : a = b := h1
          rw [← hab] at h2b
          rw [hv] at h2b
          injection h2b with h2b
          have hcza : cur2 a = some v.stored := by
            rw [hcur2]
            simp [hg, h2b]
          simp [diffTest, hv, hcza, stored_not_exceeds v]
        | none =>
          have had : a ∈ dataColsOf d := (hit (dataColsOf d)).mem_iff.1 ha
          rcases Option.isSome_iff_exists.1 (hcomp a had) with ⟨o, ho⟩
          have hEf : exceedsTol o v.toQ = false := by
            cases hE : exceedsTol o v.toQ
            · rfl
            · have hdt : diffTest cur d a = some (a, v) := by
                simp [diffTest, hv, ho, hE]
              have hmem : (a, v) ∈ sets := by
                rw [hsets]
                exact List.mem_filterMap.2 ⟨a, ha, hdt⟩
              rcases dget_isSome_of_mem_keys sets a
                  (List.mem_map.2 ⟨(a, v), hmem, rfl⟩) with ⟨w, hw⟩
              rw [hg] at hw
              cases hw
          have hcza : cur2 a = some o := by
            rw [hcur2]
            simp [hg, ho]
          simp [diffTest, hv, hcza, hEf]
      rw [hnil2] at hsp2
      have hcls2 : classifyData st2 it tn d = ⟨[], none, {skip := 1}⟩ := by
        simp [classifyData, ht, he, h2, hsp2]
      simp [processRow, htv, hk, hb, hcls2]

/-- Executing a concatenation is executing the parts in order. -/
theorem execAll_append (fresh : Store → String → ℤ) (st : Store) (l1 l2 : List Stmt) :
    (execAll fresh st (l1 ++ l2)).1 = (execAll fresh (execAll fresh st l1).1 l2).1 := by
  induction l1 generalizing st with
  | nil => rfl
  | cons s ss ih => simp [execAll, ih]

/-- Executing UPDATE statements aimed at other keys leaves a key unchanged. -/
theorem execAll_preserve_key (fresh : Store → String → ℤ) (st : Store)
    (stmts : List Stmt) (t : String) (n : ℤ)
    (h : ∀ s ∈ stmts, ∃ t2 sets n2, s = Stmt.upd t2 sets n2 ∧ ¬(t = t2 ∧ n = n2)) :
    (execAll fresh st stmts).1 t n = st t n := by
  induction stmts generalizing st with
  | nil => rfl
  | cons s ss ih =>
    rcases h s (List.mem_cons_self _ _) with ⟨t2, sets, n2, rfl, hne⟩
    have hstep : (execStmt fresh st (Stmt.upd t2 sets n2)).1 t n = st t n := by
      cases hst : st t2 n2 with
      | none => simp [execStmt, hst]
      | some cur =>
        simp only [execStmt, hst, storeSet]
        rw [if_neg hne]
    show (execAll fresh (execStmt fresh st (Stmt.upd t2 sets n2)).1 ss).1 t n = st t n
    rw [ih _ (fun s2 hs2 => h s2 (List.mem_cons_of_mem _ hs2)), hstep]

/-- Every statement the engine emits for a list of found update candidates
is an UPDATE at one of the candidates' keys. -/
theorem engine_ops_shape (tcols : String → List Col) (store : Store)
    (it : List Col → List Col) (cands : List CandRow)
    (hit : validIter it)
    (hprops : ∀ x ∈ cands, IsCand tcols store x) :
    ∀ s ∈ (engine tcols store it (cands.map (fun x => x.r))).ops,
      ∃ x ∈ cands, ∃ sets, s = Stmt.upd x.tn sets x.n := by
  induction cands with
  | nil =>
    intro s hs
    cases hs
  | cons x0 rest ih =>
    intro s hs
    have hsplit : (engine tcols store it ((x0 :: rest).map (fun x => x.r))).ops =
        (processRow tcols store it x0.r).stmt.toList ++
          (engine tcols store it (rest.map (fun x => x.r))).ops := rfl
    rw [hsplit] at hs
    rcases List.mem_append.1 hs with h1 | h2
    · rcases hprops x0 (List.mem_cons_self _ _) with
        ⟨htv, hk, hb, hid, hn, hdc, hcur, hcomp⟩
      rcases row_step tcols store it (fun _ _ => 0) x0.r x0.tn x0.d x0.n x0.cur
          hit htv hk hb hid hn hdc hcur hcomp with ⟨next, ha, _, _⟩
      rcases ha s h1 with ⟨sets, rfl⟩
      exact ⟨x0, List.mem_cons_self _ _, sets, rfl⟩
    · rcases ih (fun y hy => hprops y (List.mem_cons_of_mem _ hy)) s h2 with
        ⟨x, hx, sets, rfl⟩
      exact ⟨x, List.mem_cons_of_mem _ hx, sets, rfl⟩

/-- The inductive core of the amended C4, generalized over the store the
statements are executed against (it must agree with the classification
store at every candidate key). -/
theorem idem_aux (tcols : String → List Col) (store : Store) (it : List Col → List Col)
    (fresh : Store → String → ℤ) (hit : validIter it) :
    ∀ cands : List CandRow,
      (∀ x ∈ cands, IsCand tcols store x) →
      ((cands.map (fun x => (x.tn, x.n))).Nodup) →
      ∀ st0 : Store, (∀ x ∈ cands, st0 x.tn x.n = store x.tn x.n) →
      (engine tcols
          (execAll fresh st0 (engine tcols store it (cands.map (fun x => x.r))).ops).1
          it (cands.map (fun x => x.r))).changes = {skip := cands.length} ∧
      (engine tcols
          (execAll fresh st0 (engine tcols store it (cands.map (fun x => x.r))).ops).1
          it (cands.map (fun x => x.r))).ops = [] := by
  intro cands
  induction cands with
  | nil =>
    intro _ _ st0 _
    exact ⟨rfl, rfl⟩
  | cons x0 rest ih =>
    intro hprops hdist st0 hagree
    rcases hprops x0 (List.mem_cons_self _ _) with
      ⟨htv, hk, hb, hid, hn, hdc, hcur, hcomp⟩
    rcases row_step tcols store it fresh x0.r x0.tn x0.d x0.n x0.cur
        hit htv hk hb hid hn hdc hcur hcomp with ⟨next0, ha0, hb0, hc0⟩
    have hopsu : (engine tcols store it ((x0 :: rest).map (fun x => x.r))).ops =
        (processRow tcols store it x0.r).stmt.toList ++
          (engine tcols store it (rest.map (fun x => x.r))).ops := rfl
    have hkey0 : ∀ y ∈ rest, ¬(x0.tn = y.tn ∧ x0.n = y.n) := by
      intro y hy hcon
      have hm : (x0.tn, x0.n) ∈ rest.map (fun x => (x.tn, x.n)) := by
        refine List.mem_map.2 ⟨y, hy, ?_⟩
        rw [hcon.1, hcon.2]
      exact (List.nodup_cons.1 hdist).1 hm
    have hshape := engine_ops_shape tcols store it rest hit
      (fun y hy => hprops y (List.mem_cons_of_mem _ hy))
    have hshape2 : ∀ s ∈ (engine tcols store it (rest.map (fun x => x.r))).ops,
        ∃ t2 sets n2, s = Stmt.upd t2 sets n2 ∧ ¬(x0.tn = t2 ∧ x0.n = n2) := by
      intro s hs
      rcases hshape s hs with ⟨y, hy, sets, rfl⟩
      exact ⟨y.tn, sets, y.n, rfl, hkey0 y hy⟩
    have hfinal : (execAll fresh st0
          (engine tcols store it ((x0 :: rest).map (fun x => x.r))).ops).1
        = (execAll fresh
            (execAll fresh st0 (processRow tcols store it x0.r).stmt.toList).1
            (engine tcols store it (rest.map (fun x => x.r))).ops).1 := by
      rw [hopsu]
      exact execAll_append _ _ _ _
    have hfin0 : (execAll fresh
          (execAll fresh st0 (processRow tcols store it x0.r).stmt.toList).1
          (engine tcols store it (rest.map (fun x => x.r))).ops).1 x0.tn x0.n
        = some next0 := by
      rw [execAll_preserve_key fresh _ _ x0.tn x0.n hshape2]
      refine hb0 st0 ?_
      rw [hagree x0 (List.mem_cons_self _ _)]
      exact hcur
    have hagree1 : ∀ y ∈ rest,
        (execAll fresh st0 (processRow tcols store it x0.r).stmt.toList).1 y.tn y.n
          = store y.tn y.n := by
      intro y hy
      have hown : ∀ s ∈ (processRow tcols store it x0.r).stmt.toList,
          ∃ t2 sets n2, s = Stmt.upd t2 sets n2 ∧ ¬(y.tn = t2 ∧ y.n = n2) := by
        intro s hs
        rcases ha0 s hs with ⟨sets, rfl⟩
        refine ⟨x0.tn, sets, x0.n, rfl, ?_⟩
        intro hcon
        exact hkey0 y hy ⟨hcon.1.symm, hcon.2.symm⟩
      rw [execAll_preserve_key fresh st0 _ y.tn y.n hown]
      exact hagree y (List.mem_cons_of_mem _ hy)
    have hrest := ih (fun y hy => hprops y (List.mem_cons_of_mem _ hy))
      (List.nodup_cons.1 hdist).2
      (execAll fresh st0 (processRow tcols store it x0.r).stmt.toList).1 hagree1
    have hpr : processRow tcols
        (execAll fresh st0
          (engine tcols store it ((x0 :: rest).map (fun x => x.r))).ops).1 it x0.r
        = ⟨(buildData x0.r (tcols x0.tn)).1 ++ [], none, {skip := 1}⟩ := by
      refine hc0 _ ?_
      rw [hfinal]
      exact hfin0
    have hrestc : (engine tcols
        (execAll fresh st0
          (engine tcols store it ((x0 :: rest).map (fun x => x.r))).ops).1
        it (rest.map (fun x => x.r))).changes = {skip := rest.length} := by
      rw [hfinal]
      exact hrest.1
    have hresto : (engine tcols
        (execAll fresh st0
          (engine tcols store it ((x0 :: rest).map (fun x => x.r))).ops).1
        it (rest.map (fun x => x.r))).ops = [] := by
      rw [hfinal]
      exact hrest.2
    constructor
    · show addC (processRow tcols _ it x0.r).delta
        (engine tcols _ it (rest.map (fun x => x.r))).changes = _
      rw [hpr, hrestc]
      show addC {skip := 1} {skip := rest.length} = {skip := (x0 :: rest).length}
      simp [addC, Nat.add_comm]
    · show (processRow tcols _ it x0.r).stmt.toList ++
        (engine tcols _ it (rest.map (fun x => x.r))).ops = []
      rw [hpr, hresto]
      rfl

/-- C4 (amended: restricted to inputs whose rows are all found update
candidates with pairwise-distinct (table, id) keys): applying the changeset
and re-running the engine on the same input against the resulting store
yields a second changeset that is entirely skip — one skip per row, no
statements, hence zero inserts, updates and deletes.  (Idempotence fails
for rows without an identifier: see the counterexample.) -/
theorem c4_update_idempotent (tcols : String → List Col) (store : Store)
    (it : List Col → List Col) (fresh : Store → String → ℤ)
    (cands : List CandRow) (hit : validIter it)
    (hprops : ∀ x ∈ cands, IsCand tcols store x)
    (hdist : (cands.map (fun x => (x.tn, x.n))).Nodup) :
    (engine tcols
        (execAll fresh store (engine tcols store it (cands.map (fun x => x.r))).ops).1
        it (cands.map (fun x => x.r))).changes = {skip := cands.length} ∧
    (engine tcols
        (execAll fresh store (engine tcols store it (cands.map (fun x => x.r))).ops).1
        it (cands.map (fun x => x.r))).ops = [] :=
  idem_aux tcols store it fresh hit cands hprops hdist store (fun _ _ => rfl)

/-- C4 counterexample: a pure insert row (no identifier) produces one
INSERT; after applying it, re-running the engine on the same input against
the resulting store produces one INSERT again (not zero inserts), because
an id-less row classifies as insert regardless of the store. -/
theorem c4_counterexample :
    (engine tcols0 store0 iterA [rowC4]).changes = {insert := 1} ∧
    (engine tcols0
        (execAll fresh0 store0 (engine tcols0 store0 iterA [rowC4]).ops).1
        iterA [rowC4]).changes = {insert := 1} :=
  ⟨by decide, by decide⟩

/-- Witness for C4: the single update candidate `id=7, mean=1.0` against
stored `mean=1` applies nothing and re-runs to one skip. -/
theorem c4_witness :
    (engine tcols0
        (execAll fresh0 storeW (engine tcols0 storeW iterA [rowW]).ops).1
        iterA [rowW]).changes = {skip := 1} ∧
    (engine tcols0
        (execAll fresh0 storeW (engine tcols0 storeW iterA [rowW]).ops).1
        iterA [rowW]).ops = [] := by
  have h := c4_update_idempotent tcols0 storeW iterA fresh0
    [⟨rowW, "statistics", [("id", Val.i 7), ("mean", Val.f 1)], 7, curW⟩]
    (fun l => List.Perm.refl l)
    (fun x hx => by
      rcases List.mem_singleton.1 hx with rfl
      exact ⟨rfl, rfl, rfl, rfl, by decide, by decide, rfl, by decide⟩)
    (by simp)
  exact h

/-- C5 counterexample: two preview runs over the same input and store,
differing only in the interpreter's set-iteration order (both orders are
valid permutations, as Python's hash randomization permits), print
different bytes: the SET-clause order of the UPDATE statement follows the
iteration order of the Python set `data_cols`. -/
theorem c5_counterexample :
    validIter iterA ∧ validIter iterB ∧
    previewLines tcols0 store5 iterA fns5 raws5 ≠
      previewLines tcols0 store5 iterB fns5 raws5 :=
  ⟨fun l => List.Perm.refl l, fun l => List.reverse_perm l, by decide⟩

/-- C5 (amended: determinism holds only relative to the interpreter's
set-iteration order): two preview runs with the same iteration order are
byte-identical, and for any two valid orders the per-row messages, the
summary counters and the statement sequence agree up to permuting the
SET-clause parts inside each UPDATE statement. -/
theorem c5_preview_deterministic (tcols : String → List Col) (store : Store)
    (it1 it2 : List Col → List Col) (fns : List Col) (raws : List (List Cell))
    (h1 : validIter it1) (h2 : validIter it2) :
    (it1 = it2 →
      previewLines tcols store it1 fns raws = previewLines tcols store it2 fns raws) ∧
    (∀ rows, parsePhase fns raws = Except.ok rows →
      (engine tcols store it1 rows).msgs = (engine tcols store it2 rows).msgs ∧
      (engine tcols store it1 rows).changes = (engine tcols store it2 rows).changes ∧
      List.Forall₂ StmtEquiv (engine tcols store it1 rows).ops
        (engine tcols store it2 rows).ops) := by
  constructor
  · rintro rfl
    rfl
  · intro rows _
    exact engine_iter_equiv tcols store it1 it2 rows h1 h2

/-- Witness for C5: the identity and reversed orders give equal counters
on a concrete update row. -/
theorem c5_witness :
    validIter iterA ∧ validIter iterB ∧
    (engine tcols0 store5 iterA
        [dictRow fns5 [cellS "statistics", cellI 7, cellF 5 "5.0", cellF 6 "6.0"]]).changes =
      (engine tcols0 store5 iterB
        [dictRow fns5 [cellS "statistics", cellI 7, cellF 5 "5.0", cellF 6 "6.0"]]).changes := by
  refine ⟨fun l => List.Perm.refl l, fun l => List.reverse_perm l, ?_⟩
  exact ((c5_preview_deterministic tcols0 store5 iterA iterB fns5 raws5
    (fun l => List.Perm.refl l) (fun l => List.reverse_perm l)).2
    [dictRow fns5 [cellS "statistics", cellI 7, cellF 5 "5.0", cellF 6 "6.0"]] rfl).2.1

/-- C1: for every input CSV and fixed store state, the statement sequence
printed by preview (dry run) is exactly the statement sequence that apply
executes, in the same order (preview prints precisely the rendered
executed statements), and preview performs no store writes: its resulting
store is the input store. -/
theorem c1_preview_predicts_apply (tcols : String → List Col) (store : Store)
    (it : List Col → List Col) (fns : List Col) (raws : List (List Cell))
    (fresh : Store → String → ℤ) (rows : List Row)
    (hok : parsePhase fns raws = Except.ok rows) :
    previewPrintedOps tcols store it fns raws = applyExecutedOps tcols store it fns raws ∧
    previewLines tcols store it fns raws =
      ["=== DRY RUN MODE: SQL commands that would be executed ===", eqBar] ++
        (engine tcols store it rows).msgs ++
        [summaryLine "Operations summary: " (engine tcols store it rows).changes,
          "SQL to execute:"] ++
        (applyExecutedOps tcols store it fns raws).map renderStmt ++
        ["Dry run complete, no changes applied."] ∧
    (applyRun tcols store it fns raws fresh).1 =
      (execAll fresh store (applyExecutedOps tcols store it fns raws)).1 ∧
    (importRun tcols store it fns raws fresh true).1 = store := by
  refine ⟨rfl, ?_, ?_, rfl⟩
  · simp [previewLines, applyExecutedOps, hok]
  · simp [applyRun, applyExecutedOps, hok]

/-- Witness for C1 at a concrete header, row and store. -/
theorem c1_witness :
    previewPrintedOps tcols0 store5 iterA fns5 raws5 =
      applyExecutedOps tcols0 store5 iterA fns5 raws5 ∧
    (importRun tcols0 store5 iterA fns5 raws5 fresh0 true).1 = store5 := by
  have h := c1_preview_predicts_apply tcols0 store5 iterA fns5 raws5 fresh0
    [dictRow fns5 [cellS "statistics", cellI 7, cellF 5 "5.0", cellF 6 "6.0"]] rfl
  exact ⟨h.1, h.2.2.2⟩

/-- C9 counterexample: under the header `table, id, mean`, a data row with
only two fields has a field count differing from the header's, yet the run
does not abort: `DictReader` pads short rows with `None`, so `len(row)`
still equals the header length; the row reaches classification and merely
fails with a per-row error, leaving counters unchanged. -/
theorem c9_counterexample :
    List.length [cellS "statistics", cellI 7] ≠ fns9.length ∧
    parsePhase fns9 raws9 = Except.ok [dictRow fns9 [cellS "statistics", cellI 7]] ∧
    (engine tcols0 store0 iterA [dictRow fns9 [cellS "statistics", cellI 7]]).msgs =
      ["Error processing row"] ∧
    (engine tcols0 store0 iterA [dictRow fns9 [cellS "statistics", cellI 7]]).changes
      = {} :=
  ⟨by decide, rfl, by decide, by decide⟩

/-- C9 (amended: only rows with more fields than the header abort): if the
first over-long data row is at index `k`, the run aborts during reading
with line number `k + 2` (rows with fewer fields than the header do not
abort, as the counterexample shows); a per-field conversion failure drops
exactly that field with a warning while the record continues. -/
theorem c9_structural_abort :
    (∀ (fns : List Col) (raws : List (List Cell)) (k : ℕ) (raw : List Cell),
        (∀ r2 ∈ raws.take k, r2.length ≤ fns.length) →
        raws[k]? = some raw → fns.length < raw.length →
        parsePhase fns raws = Except.error (k + 2)) ∧
    (∀ (r : Row) (c : Col) (cs : List Col) (cell : Cell),
        rowGet r c = some (some cell) → cell.stripped ≠ "" → convFn c cell = none →
        buildData r (c :: cs) =
          (("Warning: Could not convert " ++ c ++ "=" ++ cell.stripped ++ ", skipping") ::
            (buildData r cs).1, (buildData r cs).2)) := by
  constructor
  · intro fns raws k raw hok hget hlong
    rw [parsePhase, parseFrom_error fns raws 2 k raw hok hget hlong, Nat.add_comm]
  · exact buildData_convFail

/-- Witness for C9: an over-long row under a 3-column header aborts with
line 2, and a non-numeric `state` cell is dropped with a warning. -/
theorem c9_witness :
    parsePhase fns9 raws9b = Except.error 2 ∧
    buildData rowBad ["state", "sum"] =
      (["Warning: Could not convert state=abc, skipping"], some []) := by
  constructor
  · exact c9_structural_abort.1 fns9 raws9b 0
      [cellS "statistics", cellI 7, cellF 5 "5.0", cellF 6 "6.0"]
      (by simp) rfl (by decide)
  · have h := c9_structural_abort.2 rowBad "state" ["sum"] (cellS "abc") rfl
      (by decide) rfl
    rw [h]
    rfl

end HACli
